import Mathlib

deriving instance DecidableEq for Except

/-!
Verification of the change-set engine and CLI glue of the tailor repository.

The embedding follows the Go sources:
* `commands/diff.go` (src/unnamed/part_000): `Diff`, `calculateChangeset`, `compare`;
* `main.go` (src/main.go): `getFilter`, `kindMapping`, the interactive `update`
  command dispatch and the `status`/`diff` exit codes;
* the newer `main.go` embedded in the test resources: the `diff` command dispatch.

Functions of the `openshift` and `cli` packages that are referenced by those
files but whose sources are not part of the repository snapshot
(`openshift.NewChangeset`, `Changeset.Blank`, `Change.ItemName`,
`cli.AskForConfirmation`, the `openshift.Params` cipher store) are modelled
from the specification; each such definition carries a doc comment saying so.
-/

namespace Tailor

/-- A normalized API resource: kind, name and a canonical payload.  The payload
stands for the canonical serialized form of the object's tree (§3 of the spec);
two resources are in sync exactly when their canonical payloads coincide. -/
structure Resource where
  kind : String
  name : String
  payload : String
deriving DecidableEq

/-- Identity of a resource: the `Kind/Name` key (§3: `(Kind, Name)` is the identity). -/
def keyOf (r : Resource) : String :=
  r.kind ++ "/" ++ r.name

/-- One classified change.  Mirrors the spec's `Change` record restricted to
the fields the claims need: identity plus the optional current/desired side. -/
structure Change where
  kind : String
  name : String
  currentState : Option String
  desiredState : Option String
deriving DecidableEq

/-- Modelled from the spec: `Change.ItemName` of the `openshift` package is not
under src/; callers print it as the `Kind/Name` identity (for example
`* Service/pi is in sync`). -/
def ItemName (c : Change) : String :=
  c.kind ++ "/" ++ c.name

/-- The buckets of a changeset.  These are exactly the four buckets the
in-repository `compare` function iterates and summarizes. -/
structure Changeset where
  Noop : List Change
  Create : List Change
  Update : List Change
  Delete : List Change
deriving DecidableEq

/-- The changeset with every bucket empty; Go's `&openshift.Changeset{}`. -/
def emptyChangeset : Changeset :=
  ⟨[], [], [], []⟩

/-- Modelled from the spec: `Changeset.Blank` of the `openshift` package is not
under src/; per §3 it is true iff all mutation buckets are empty. -/
def Changeset.Blank (c : Changeset) : Bool :=
  c.Create.isEmpty && c.Update.isEmpty && c.Delete.isEmpty

/-- Modelled from the spec: `openshift.NewChangeset` is not under src/.
Per §4.3 of the spec: the create bucket holds desired-only keys, the delete
bucket holds current-only keys unless `upsertOnly` is set, and every shared
key is classified `Noop` when the canonical payloads agree and `Update`
otherwise.  The payload being the already-canonical form, patch computation
collapses to payload equality; the `Recreate`/immutable handling and the
final by-kind-and-name sort are omitted because every claim checked below is
insensitive to them (they concern bucket membership only). -/
def NewChangeset (remoteResourceList localResourceList : List Resource) (upsertOnly : Bool) : Changeset :=
  let inLocal : Resource → Bool := fun r => localResourceList.any (fun x => keyOf x == keyOf r)
  let inRemote : Resource → Bool := fun r => remoteResourceList.any (fun x => keyOf x == keyOf r)
  let deleteBucket : List Change :=
    if upsertOnly then
      []
    else
      (remoteResourceList.filter (fun r => !(inLocal r))).map
        (fun r => ⟨r.kind, r.name, some r.payload, none⟩)
  let createBucket : List Change :=
    (localResourceList.filter (fun r => !(inRemote r))).map
      (fun r => ⟨r.kind, r.name, none, some r.payload⟩)
  let pairs : List (Resource × Resource) :=
    remoteResourceList.filterMap (fun r =>
      (localResourceList.find? (fun x => keyOf x == keyOf r)).map (fun d => (r, d)))
  let noopBucket : List Change :=
    (pairs.filter (fun p => p.2.payload == p.1.payload)).map
      (fun p => ⟨p.1.kind, p.1.name, some p.1.payload, some p.2.payload⟩)
  let updateBucket : List Change :=
    (pairs.filter (fun p => !(p.2.payload == p.1.payload))).map
      (fun p => ⟨p.1.kind, p.1.name, some p.1.payload, some p.2.payload⟩)
  ⟨noopBucket, createBucket, updateBucket, deleteBucket⟩

/-- The subset of `cli.CompareOptions` the changeset calculation reads. -/
structure CompareOptions where
  force : Bool
  upsertOnly : Bool
deriving DecidableEq

/-- Result triple of `calculateChangeset`, mirroring Go's
`(bool, *openshift.Changeset, error)`. -/
structure ChangesetResult where
  driftDetected : Bool
  changeset : Changeset
  err : Option String
deriving DecidableEq

/-- The lines printed by `compare` for the `Noop` bucket
(`fmt.Printf("* %s is in sync\n", change.ItemName())`). -/
def noopLines (cs : Changeset) : List String :=
  cs.Noop.map (fun c => "* " ++ ItemName c ++ " is in sync\n")

/-- The final chunk of the summary printed by `compare`
(`cli.PrintRedf("%d to delete\n\n", len(changeset.Delete))`). -/
def deleteSummaryChunk (cs : Changeset) : String :=
  toString cs.Delete.length ++ " to delete\n\n"

/-- Embedding of `calculateChangeset` from `commands/diff.go`, taking the two
already-assembled resource lists as inputs (templates are expanded and the
cluster exported by adapters whose failures abort before this logic runs;
`NewChangeset` being modelled total, the error slot of the result is `none`).
The desired-state-empty guard and the drift computation follow the source:
when the template-based list is empty and `--force` is not given, the
function prints a refusal and returns `(false, &openshift.Changeset{}, nil)`;
otherwise `updateRequired = !changeset.Blank()`. -/
def calculateChangeset (templateBasedList platformBasedList : List Resource)
    (opts : CompareOptions) : ChangesetResult :=
  if templateBasedList.length == 0 && !opts.force then
    ⟨false, emptyChangeset, none⟩
  else
    let cs := NewChangeset platformBasedList templateBasedList opts.upsertOnly
    ⟨!cs.Blank, cs, none⟩

/-- Embedding of `commands.Diff`: it forwards the drift flag and error of
`calculateChangeset`, dropping the changeset. -/
def Diff (templateBasedList platformBasedList : List Resource)
    (opts : CompareOptions) : Bool × Option String :=
  let r := calculateChangeset templateBasedList platformBasedList opts
  (r.driftDetected, r.err)

/-- Exit code of the `diff`/`status` command dispatch in `main.go`:
`log.Fatalln` on error exits 1, drift exits 3, otherwise the process ends
normally with 0. -/
def diffCommandExitCode (driftDetected : Bool) (err : Option String) : Nat :=
  match err with
  | some _ => 1
  | none => if driftDetected then 3 else 0

/-- Modelled from the spec: `cli.AskForConfirmation` is not under src/; §4.4
requires the affirmative token `yes` and treats any other input as an abort. -/
def askForConfirmation (answer : String) : Bool :=
  answer == "yes"

/-- Embedding of the `update` command dispatch in `main.go`: whether
`openshift.UpdateRemote` is invoked, as a function of the drift flag, the
`--non-interactive` flag and the user's answer to the confirmation prompt. -/
def applyInvokesUpdateRemote (updateRequired nonInteractive : Bool)
    (answer : String) : Bool :=
  if updateRequired then
    if nonInteractive then true else askForConfirmation answer
  else
    false

/-! Embedding of `getFilter` and `kindMapping` from `main.go`.  Strings are
lowered per character through the explicit upper-to-lower table below, which
coincides with Go's `strings.ToLower` on the ASCII arguments at stake;
splitting on a one-character separator reproduces Go's `strings.Split`. -/

/-- The table pairing each upper-case ASCII letter with its lower-case form. -/
def lowerTable : List (Char × Char) :=
  [('A', 'a'), ('B', 'b'), ('C', 'c'), ('D', 'd'), ('E', 'e'), ('F', 'f'),
   ('G', 'g'), ('H', 'h'), ('I', 'i'), ('J', 'j'), ('K', 'k'), ('L', 'l'),
   ('M', 'm'), ('N', 'n'), ('O', 'o'), ('P', 'p'), ('Q', 'q'), ('R', 'r'),
   ('S', 's'), ('T', 't'), ('U', 'u'), ('V', 'v'), ('W', 'w'), ('X', 'x'),
   ('Y', 'y'), ('Z', 'z')]

/-- Lower-casing of one character via `lowerTable`. -/
def lowerChar (c : Char) : Char :=
  match lowerTable.find? (fun p => p.1 == c) with
  | some p => p.2
  | none => c

/-- Lower-casing of a string, Go's `strings.ToLower`. -/
def lowerStr (s : String) : String :=
  ⟨s.data.map lowerChar⟩

/-- Go's `strings.Split` for a one-character separator: splitting the empty
string yields one empty field, and every occurrence of the separator starts a
new field. -/
def splitOnChar (sep : Char) : List Char → List (List Char)
  | [] => [[]]
  | c :: cs =>
    let rest := splitOnChar sep cs
    if c == sep then
      [] :: rest
    else
      match rest with
      | r :: rs => (c :: r) :: rs
      | [] => [[c]]

/-- Go's `strings.Join`. -/
def joinWith (sep : String) : List String → String
  | [] => ""
  | [x] => x
  | x :: xs => x ++ sep ++ joinWith sep xs

/-- The fixed alias table `kindMapping` of `main.go`, verbatim. -/
def kindMapping : List (String × String) :=
  [("svc", "Service"),
   ("service", "Service"),
   ("route", "Route"),
   ("dc", "DeploymentConfig"),
   ("deploymentconfig", "DeploymentConfig"),
   ("bc", "BuildConfig"),
   ("buildconfig", "BuildConfig"),
   ("is", "ImageStream"),
   ("imagestream", "ImageStream"),
   ("pvc", "PersistentVolumeClaim"),
   ("persistentvolumeclaim", "PersistentVolumeClaim"),
   ("template", "Template"),
   ("cm", "ConfigMap"),
   ("configmap", "ConfigMap"),
   ("secret", "Secret"),
   ("rolebinding", "RoleBinding"),
   ("serviceaccount", "ServiceAccount")]

/-- Lookup in `kindMapping`; `none` corresponds to the token being absent. -/
def lookupKind (token : String) : Option String :=
  (kindMapping.find? (fun p => p.1 == token)).map (fun p => p.2)

/-- The `openshift.ResourceFilter` record as constructed by `getFilter`. -/
structure ResourceFilter where
  Kinds : List String
  Name : String
  Label : String
deriving DecidableEq

/-- Lexicographic strict order on character lists, comparing code points;
on the ASCII kind names at stake this coincides with Go's byte-wise `<`. -/
def charListLtb : List Char → List Char → Bool
  | [], [] => false
  | [], _ :: _ => true
  | _ :: _, [] => false
  | x :: xs, y :: ys => Nat.blt x.toNat y.toNat || (x == y && charListLtb xs ys)

/-- Strict order on strings used by the sort below. -/
def strLtb (a b : String) : Bool :=
  charListLtb a.data b.data

/-- Insertion of a string into an already sorted list. -/
def insertSorted (s : String) : List String → List String
  | [] => [s]
  | x :: xs => if strLtb s x then s :: x :: xs else x :: insertSorted s xs

/-- Sorting a list of strings ascending, Go's `sort.Strings`. -/
def sortStrings (l : List String) : List String :=
  l.foldr insertSorted []

/-- Embedding of `getFilter` from `main.go`.  The argument is lower-cased;
a `kind/name` argument may not contain a comma and maps the kind through
`kindMapping` (an absent kind contributes Go's zero value, the empty string);
a comma list is matched token by token against `kindMapping`, unknown tokens
are collected into a typed error, and the targeted canonical kinds are
deduplicated (Go's `map[string]bool`) and sorted.  Go indexes `nameParts[1]`
unconditionally, which cannot panic because the argument contains a `/`;
`List.getD` mirrors that access on the reachable inputs. -/
def getFilter (kindArg selectorFlag : String) : Except String ResourceFilter :=
  let filter : ResourceFilter := ⟨[], "", selectorFlag⟩
  if kindArg.data.isEmpty then
    Except.ok filter
  else
    let k := lowerStr kindArg
    if k.data.contains '/' then
      if k.data.contains ',' then
        Except.error "You cannot target more than one resource name"
      else
        let nameParts := (splitOnChar '/' k.data).map String.mk
        Except.ok { filter with
          Name := (lookupKind (nameParts.getD 0 "")).getD "" ++ "/" ++ nameParts.getD 1 "" }
    else
      let kinds := (splitOnChar ',' k.data).map String.mk
      let unknownKinds := kinds.filter (fun t => (lookupKind t).isNone)
      if unknownKinds.isEmpty then
        Except.ok { filter with
          Kinds := sortStrings (kinds.filterMap lookupKind).eraseDups }
      else
        Except.error ("Unknown resource kinds: " ++ joinWith "," unknownKinds)

/-! Model of the parameter cipher store (`openshift.Params`), used by the
`secrets edit` command of `main.go`.  The `openshift` package sources are not
part of the repository snapshot, so the store is modelled from §4.5 of the
specification. -/

/-- One parameter of a parameter file: the key, the plaintext value (for an
encrypted key, the decrypted value), whether the key carries the `.ENC`
suffix, and for encrypted keys the original ciphertext envelope. -/
structure Param where
  key : String
  value : String
  encrypted : Bool
  ciphertext : String
deriving DecidableEq

/-- A parameter as it appears in the plaintext editor buffer produced by
`Params.Process`: key, decrypted value, and the `.ENC` marker. -/
structure EditedParam where
  key : String
  value : String
  encrypted : Bool
deriving DecidableEq

/-- The plaintext view of a stored parameter. -/
def paramView (p : Param) : EditedParam :=
  ⟨p.key, p.value, p.encrypted⟩

/-- Modelled from the spec: `Params.Process` decrypts every `*.ENC` value and
presents the parameters as plain key/value pairs to the editor (§4.5 Read and
Edit).  Comment lines and the fingerprint block, which round-trip unchanged,
are not modelled. -/
def processParams (ps : List Param) : List EditedParam :=
  ps.map paramView

/-- The line a stored parameter occupies in the file on disk: encrypted keys
carry the `.ENC` suffix and their ciphertext envelope, plain keys their value. -/
def paramLine (p : Param) : String :=
  if p.encrypted then
    p.key ++ ".ENC=" ++ p.ciphertext ++ "\n"
  else
    p.key ++ "=" ++ p.value ++ "\n"

/-- Concatenation of all lines of a parameter file. -/
def concatAll (l : List String) : String :=
  l.foldr (fun a b => a ++ b) ""

/-- The on-disk serialization of a parameter file. -/
def serializeParams (ps : List Param) : String :=
  concatAll (ps.map paramLine)

/-- Modelled from the spec: the per-line behavior of `Params.Render` (§4.5
Edit).  An encrypted key whose plaintext matches a previously read parameter
with the same key keeps that parameter's original ciphertext byte-for-byte;
a changed or new encrypted value is re-encrypted (`encryptNew` stands for
envelope generation with the public keys of `public-key-dir`); plain keys are
written as-is. -/
def renderLine (previous : List Param) (encryptNew : String → String)
    (e : EditedParam) : String :=
  if e.encrypted then
    match previous.find? (fun q => q.key == e.key && q.value == e.value && q.encrypted) with
    | some q => e.key ++ ".ENC=" ++ q.ciphertext ++ "\n"
    | none => e.key ++ ".ENC=" ++ encryptNew e.value ++ "\n"
  else
    e.key ++ "=" ++ e.value ++ "\n"

/-- Modelled from the spec: `Params.Render`, applied to the re-read editor
buffer with the originally read parameters as the `previous` argument, as in
the `secrets edit` branch of `main.go`. -/
def renderParams (edited : List EditedParam) (previous : List Param)
    (encryptNew : String → String) : String :=
  concatAll (edited.map (renderLine previous encryptNew))

/-! Helper lemmas. -/

/-- No lower-case image in `lowerTable` is the slash character. -/
lemma lowerTable_snd_ne_slash : ∀ p ∈ lowerTable, p.2 ≠ '/' := by decide

/-- No lower-case image in `lowerTable` is the comma character. -/
lemma lowerTable_snd_ne_comma : ∀ p ∈ lowerTable, p.2 ≠ ',' := by decide

/-- No lower-case image in `lowerTable` is itself a key of the table. -/
lemma lowerTable_snd_not_fst : ∀ p ∈ lowerTable, ∀ q ∈ lowerTable, q.1 ≠ p.2 := by
  decide

/-- Either a character is left unchanged by `lowerChar` (and it is not a key
of the table), or its image is the lower-case partner of a table entry. -/
lemma lowerChar_cases (c : Char) :
    (lowerTable.find? (fun p => p.1 == c) = none ∧ lowerChar c = c) ∨
      ∃ p ∈ lowerTable, p.1 = c ∧ lowerChar c = p.2 := by
  cases h : lowerTable.find? (fun p => p.1 == c) with
  | none =>
    left
    refine ⟨h ▸ rfl, ?_⟩
    · unfold lowerChar
      rw [h]
  | some p =>
    right
    have hp2 := List.find?_some h
    simp only [beq_iff_eq] at hp2
    refine ⟨p, List.mem_of_find?_eq_some h, hp2, ?_⟩
    unfold lowerChar
    rw [h]

/-- The image of `lowerChar` is never a key of `lowerTable`. -/
lemma lowerChar_not_key (c : Char) :
    lowerTable.find? (fun p => p.1 == lowerChar c) = none := by
  rcases lowerChar_cases c with ⟨h1, h2⟩ | ⟨p, hp, _, hv⟩
  · rw [h2]; exact h1
  · rw [hv]
    rw [List.find?_eq_none]
    intro q hq
    simp only [beq_iff_eq]
    exact lowerTable_snd_not_fst p hp q hq


/-- Lower-casing a character twice is the same as doing it once. -/
lemma lowerChar_idem (c : Char) : lowerChar (lowerChar c) = lowerChar c := by
  have h := lowerChar_not_key c
  calc lowerChar (lowerChar c)
      = (match lowerTable.find? (fun p => p.1 == lowerChar c) with
         | some p => p.2
         | none => lowerChar c) := rfl
    _ = lowerChar c := by rw [h]

/-- A character lower-cases to the slash exactly when it is the slash. -/
lemma lowerChar_eq_slash_iff (c : Char) : lowerChar c = '/' ↔ c = '/' := by
  constructor
  · intro h
    rcases lowerChar_cases c with ⟨_, h2⟩ | ⟨p, hp, _, hv⟩
    · rw [← h2]; exact h
    · exact absurd (hv ▸ h) (lowerTable_snd_ne_slash p hp)
  · intro h
    subst h
    decide

/-- A character lower-cases to the comma exactly when it is the comma. -/
lemma lowerChar_eq_comma_iff (c : Char) : lowerChar c = ',' ↔ c = ',' := by
  constructor
  · intro h
    rcases lowerChar_cases c with ⟨_, h2⟩ | ⟨p, hp, _, hv⟩
    · rw [← h2]; exact h
    · exact absurd (hv ▸ h) (lowerTable_snd_ne_comma p hp)
  · intro h
    subst h
    decide

/-- Lower-casing commutes with the presence of a character it fixes and never
produces. -/
lemma contains_map_lowerChar (s : Char) (hs : ∀ a, lowerChar a = s ↔ a = s)
    (l : List Char) : (l.map lowerChar).contains s = l.contains s := by
  induction l with
  | nil => rfl
  | cons a t ih =>
    have key : (s == lowerChar a) = (s == a) := by
      rw [Bool.eq_iff_iff]
      simp only [beq_iff_eq]
      constructor
      · intro h; exact ((hs a).mp h.symm).symm
      · intro h; exact ((hs a).mpr h.symm).symm
    simp only [List.map_cons, List.contains_cons, key, ih]

/-- `lowerStr` is idempotent. -/
lemma lowerStr_idem (s : String) : lowerStr (lowerStr s) = lowerStr s := by
  unfold lowerStr
  congr 1
  rw [List.map_map]
  exact List.map_congr_left (fun a _ => lowerChar_idem a)

/-- The filtered list is empty exactly when no element satisfies the filter. -/
lemma filter_isEmpty_eq_not_any {α : Type} (p : α → Bool) (l : List α) :
    (l.filter p).isEmpty = !(l.any p) := by
  induction l with
  | nil => rfl
  | cons a t ih =>
    cases h : p a <;> simp [List.filter_cons, h, ih, List.any_cons]

/-- With pairwise distinct keys, `find?` with a predicate that pins down the
key of `p` and holds at `p` returns `p` itself. -/
lemma find_first_of_key_nodup {α : Type} (keyf : α → String) (pr : α → Bool) :
    ∀ (l : List α) (p : α), (l.map keyf).Nodup → p ∈ l → pr p = true →
      (∀ x, pr x = true → keyf x = keyf p) → l.find? pr = some p := by
  intro l
  induction l with
  | nil => intro p _ hp; exact absurd hp (List.not_mem_nil p)
  | cons a t ih =>
    intro p hnd hp hq hk
    by_cases ha : pr a = true
    · rcases List.mem_cons.mp hp with rfl | hpt
      · simp [List.find?, ha]
      · exfalso
        have hka : keyf a = keyf p := hk a ha
        have hmem : keyf p ∈ t.map keyf := List.mem_map_of_mem keyf hpt
        exact (List.nodup_cons.mp hnd).1 (hka ▸ hmem)
    · have hpa : p ≠ a := by intro he; exact ha (he ▸ hq)
      have hpt : p ∈ t := by
        rcases List.mem_cons.mp hp with he | h
        · exact absurd he hpa
        · exact h
      have hrec := ih p (List.nodup_cons.mp hnd).2 hpt hq hk
      simp [List.find?, ha, hrec]


/-! Claim theorems. -/

/-- C1: for every reconcile in which the desired (template-derived) resource
list is empty and the current (cluster-derived) list is non-empty, if
`--force` is not set then `calculateChangeset` returns an empty changeset, so
no bucket — in particular `Delete` — is populated. -/
theorem claim_C1_force_guard_blocks_delete
    (templateBasedList platformBasedList : List Resource) (opts : CompareOptions)
    (hEmpty : templateBasedList = []) (hNonEmpty : platformBasedList ≠ [])
    (hForce : opts.force = false) :
    (calculateChangeset templateBasedList platformBasedList opts).changeset
        = emptyChangeset ∧
    (calculateChangeset templateBasedList platformBasedList opts).changeset.Delete
        = [] := by
  subst hEmpty
  simp [calculateChangeset, hForce, emptyChangeset]

/-- Witness for C1 at a concrete input: no templates, one remote `ConfigMap`,
`--force` unset. -/
theorem claim_C1_force_guard_blocks_delete_witness :
    (calculateChangeset [] [⟨"ConfigMap", "extra", "p"⟩] ⟨false, false⟩).changeset
        = emptyChangeset ∧
    (calculateChangeset [] [⟨"ConfigMap", "extra", "p"⟩] ⟨false, false⟩).changeset.Delete
        = [] :=
  claim_C1_force_guard_blocks_delete [] [⟨"ConfigMap", "extra", "p"⟩] ⟨false, false⟩
    rfl (by decide) rfl

/-- C2: for every run of the diff command the error slot is `nil`; the exit
code is 0 exactly when the computed changeset is blank and 3 exactly when it
is not (drift detected, i.e. at least one mutation bucket is non-empty); and
any error would yield exit code 1. -/
theorem claim_C2_diff_exit_codes
    (templateBasedList platformBasedList : List Resource) (opts : CompareOptions) :
    (calculateChangeset templateBasedList platformBasedList opts).err = none ∧
    (diffCommandExitCode
        (calculateChangeset templateBasedList platformBasedList opts).driftDetected
        (calculateChangeset templateBasedList platformBasedList opts).err = 0 ↔
      (calculateChangeset templateBasedList platformBasedList opts).changeset.Blank
        = true) ∧
    (diffCommandExitCode
        (calculateChangeset templateBasedList platformBasedList opts).driftDetected
        (calculateChangeset templateBasedList platformBasedList opts).err = 3 ↔
      (calculateChangeset templateBasedList platformBasedList opts).changeset.Blank
        = false) ∧
    (∀ (b : Bool) (e : String), diffCommandExitCode b (some e) = 1) := by
  unfold calculateChangeset
  by_cases h : (templateBasedList.length == 0 && !opts.force) = true
  · simp [h, diffCommandExitCode, emptyChangeset, Changeset.Blank]
  · simp only [h, if_false, Bool.false_eq_true]
    cases hb : (NewChangeset platformBasedList templateBasedList opts.upsertOnly).Blank <;>
      simp [hb, diffCommandExitCode]

/-- C5: in interactive mode the update command never invokes `UpdateRemote`
unless the user answers the confirmation prompt affirmatively: for every
non-affirmative input the command terminates without mutating the cluster. -/
theorem claim_C5_interactive_confirmation
    (updateRequired : Bool) (answer : String) (h : answer ≠ "yes") :
    applyInvokesUpdateRemote updateRequired false answer = false := by
  unfold applyInvokesUpdateRemote askForConfirmation
  cases updateRequired <;> simp [h]

/-- Witness for C5 at a concrete input: drift present, answer `no`. -/
theorem claim_C5_interactive_confirmation_witness :
    applyInvokesUpdateRemote true false "no" = false :=
  claim_C5_interactive_confirmation true "no" (by decide)

/-- C8: whenever the processed templates yield zero desired resources and
`--force` is not set, `calculateChangeset` returns `driftDetected = false`
with a `nil` error, so the diff command exits 0 even though the current
cluster list may be non-empty. -/
theorem claim_C8_empty_desired_exit_zero
    (templateBasedList platformBasedList : List Resource) (opts : CompareOptions)
    (hEmpty : templateBasedList.length = 0) (hForce : opts.force = false) :
    (calculateChangeset templateBasedList platformBasedList opts).driftDetected
        = false ∧
    (calculateChangeset templateBasedList platformBasedList opts).err = none ∧
    diffCommandExitCode
        (calculateChangeset templateBasedList platformBasedList opts).driftDetected
        (calculateChangeset templateBasedList platformBasedList opts).err = 0 := by
  have h0 : templateBasedList = [] := List.length_eq_zero.mp hEmpty
  subst h0
  simp [calculateChangeset, hForce, diffCommandExitCode]

/-- Witness for C8 at a concrete input: no templates, one remote resource,
`--force` unset. -/
theorem claim_C8_empty_desired_exit_zero_witness :
    (calculateChangeset [] [⟨"ConfigMap", "extra", "p"⟩] ⟨false, false⟩).driftDetected
        = false ∧
    (calculateChangeset [] [⟨"ConfigMap", "extra", "p"⟩] ⟨false, false⟩).err = none ∧
    diffCommandExitCode
        (calculateChangeset [] [⟨"ConfigMap", "extra", "p"⟩] ⟨false, false⟩).driftDetected
        (calculateChangeset [] [⟨"ConfigMap", "extra", "p"⟩] ⟨false, false⟩).err = 0 :=
  claim_C8_empty_desired_exit_zero [] [⟨"ConfigMap", "extra", "p"⟩] ⟨false, false⟩
    rfl rfl


/-- Every change in the `Noop` bucket carries the key of some desired-state
resource. -/
lemma mem_noop_key (remoteResourceList localResourceList : List Resource)
    (u : Bool) (c : Change)
    (hc : c ∈ (NewChangeset remoteResourceList localResourceList u).Noop) :
    ∃ d ∈ localResourceList, keyOf d = ItemName c := by
  simp only [NewChangeset, List.mem_map, List.mem_filter, List.mem_filterMap,
    Option.map_eq_some'] at hc
  obtain ⟨a, ⟨⟨r, _, d, hfind, hpair⟩, _⟩, hcc⟩ := hc
  subst hpair
  have hd : d ∈ localResourceList := List.mem_of_find?_eq_some hfind
  have hkey := List.find?_some hfind
  simp only [beq_iff_eq] at hkey
  refine ⟨d, hd, ?_⟩
  rw [← hcc]
  simp only [keyOf, ItemName] at hkey ⊢
  exact hkey

/-- Every change in the `Update` bucket carries the key of some desired-state
resource. -/
lemma mem_update_key (remoteResourceList localResourceList : List Resource)
    (u : Bool) (c : Change)
    (hc : c ∈ (NewChangeset remoteResourceList localResourceList u).Update) :
    ∃ d ∈ localResourceList, keyOf d = ItemName c := by
  simp only [NewChangeset, List.mem_map, List.mem_filter, List.mem_filterMap,
    Option.map_eq_some'] at hc
  obtain ⟨a, ⟨⟨r, _, d, hfind, hpair⟩, _⟩, hcc⟩ := hc
  subst hpair
  have hd : d ∈ localResourceList := List.mem_of_find?_eq_some hfind
  have hkey := List.find?_some hfind
  simp only [beq_iff_eq] at hkey
  refine ⟨d, hd, ?_⟩
  rw [← hcc]
  simp only [keyOf, ItemName] at hkey ⊢
  exact hkey

/-- Every change in the `Create` bucket carries the key of some desired-state
resource. -/
lemma mem_create_key (remoteResourceList localResourceList : List Resource)
    (u : Bool) (c : Change)
    (hc : c ∈ (NewChangeset remoteResourceList localResourceList u).Create) :
    ∃ d ∈ localResourceList, keyOf d = ItemName c := by
  simp only [NewChangeset, List.mem_map, List.mem_filter] at hc
  obtain ⟨d, ⟨hd, _⟩, hcc⟩ := hc
  refine ⟨d, hd, ?_⟩
  rw [← hcc]
  rfl

/-- With upsert-only set, the modelled changeset has no `Delete` bucket. -/
lemma delete_empty_of_upsert_only (remoteResourceList localResourceList : List Resource) :
    (NewChangeset remoteResourceList localResourceList true).Delete = [] := by
  simp [NewChangeset]

/-- C3: when the `UpsertOnly` flag is set the `Delete` bucket is empty, a
remote-only resource (one whose key no desired resource carries) appears in
no bucket, and the diff summary reports `0 to delete`. -/
theorem claim_C3_upsert_only_no_delete
    (remoteResourceList localResourceList : List Resource) (r0 : Resource)
    (hr0 : r0 ∈ remoteResourceList)
    (hOnly : ∀ d ∈ localResourceList, keyOf d ≠ keyOf r0) :
    (NewChangeset remoteResourceList localResourceList true).Delete = [] ∧
    (∀ c ∈ (NewChangeset remoteResourceList localResourceList true).Noop ++
        (NewChangeset remoteResourceList localResourceList true).Create ++
        (NewChangeset remoteResourceList localResourceList true).Update ++
        (NewChangeset remoteResourceList localResourceList true).Delete,
      ItemName c ≠ keyOf r0) ∧
    deleteSummaryChunk (NewChangeset remoteResourceList localResourceList true)
        = "0 to delete\n\n" := by
  refine ⟨delete_empty_of_upsert_only remoteResourceList localResourceList, ?_, ?_⟩
  · intro c hc
    rcases List.mem_append.mp hc with hc3 | hc4
    rcases List.mem_append.mp hc3 with hc1 | hc2
    rcases List.mem_append.mp hc1 with hn | hcr
    · obtain ⟨d, hd, hkey⟩ := mem_noop_key _ _ _ _ hn
      rw [← hkey]
      exact hOnly d hd
    · obtain ⟨d, hd, hkey⟩ := mem_create_key _ _ _ _ hcr
      rw [← hkey]
      exact hOnly d hd
    · obtain ⟨d, hd, hkey⟩ := mem_update_key _ _ _ _ hc2
      rw [← hkey]
      exact hOnly d hd
    · rw [delete_empty_of_upsert_only] at hc4
      exact absurd hc4 (List.not_mem_nil c)
  · rw [deleteSummaryChunk, delete_empty_of_upsert_only]
    rfl

/-- Witness for C3 at a concrete input: the remote-only `ConfigMap extra`
against a desired list holding only `Service pi`. -/
theorem claim_C3_upsert_only_no_delete_witness :
    (NewChangeset [⟨"ConfigMap", "extra", "x"⟩] [⟨"Service", "pi", "p"⟩] true).Delete
        = [] ∧
    (∀ c ∈ (NewChangeset [⟨"ConfigMap", "extra", "x"⟩] [⟨"Service", "pi", "p"⟩] true).Noop ++
        (NewChangeset [⟨"ConfigMap", "extra", "x"⟩] [⟨"Service", "pi", "p"⟩] true).Create ++
        (NewChangeset [⟨"ConfigMap", "extra", "x"⟩] [⟨"Service", "pi", "p"⟩] true).Update ++
        (NewChangeset [⟨"ConfigMap", "extra", "x"⟩] [⟨"Service", "pi", "p"⟩] true).Delete,
      ItemName c ≠ keyOf ⟨"ConfigMap", "extra", "x"⟩) ∧
    deleteSummaryChunk (NewChangeset [⟨"ConfigMap", "extra", "x"⟩] [⟨"Service", "pi", "p"⟩] true)
        = "0 to delete\n\n" :=
  claim_C3_upsert_only_no_delete [⟨"ConfigMap", "extra", "x"⟩] [⟨"Service", "pi", "p"⟩]
    ⟨"ConfigMap", "extra", "x"⟩ (by decide) (by decide)


/-- C7: for every change classified `Noop` the diff command prints the line
`* <Kind/Name> is in sync`; in particular, when the template expands to a
`Service pi` identical to the current state, diff prints
`* Service/pi is in sync` and exits 0 (whatever the force and upsert-only
flags). -/
theorem claim_C7_noop_in_sync :
    (∀ (cs : Changeset), ∀ c ∈ cs.Noop,
      ("* " ++ ItemName c ++ " is in sync\n") ∈ noopLines cs) ∧
    (∀ (payload : String) (f u : Bool),
      noopLines (calculateChangeset [⟨"Service", "pi", payload⟩]
          [⟨"Service", "pi", payload⟩] ⟨f, u⟩).changeset
        = ["* Service/pi is in sync\n"] ∧
      diffCommandExitCode
          (calculateChangeset [⟨"Service", "pi", payload⟩]
            [⟨"Service", "pi", payload⟩] ⟨f, u⟩).driftDetected
          (calculateChangeset [⟨"Service", "pi", payload⟩]
            [⟨"Service", "pi", payload⟩] ⟨f, u⟩).err = 0) := by
  constructor
  · intro cs c hc
    exact List.mem_map_of_mem (fun c => "* " ++ ItemName c ++ " is in sync\n") hc
  · intro payload f u
    cases u <;>
      simp [calculateChangeset, NewChangeset, noopLines, ItemName, keyOf,
        diffCommandExitCode, Changeset.Blank, emptyChangeset]

/-- Witness for C7: the scenario instantiated with a concrete payload. -/
theorem claim_C7_noop_in_sync_witness :
    ("* " ++ ItemName ⟨"Service", "pi", some "p", some "p"⟩ ++ " is in sync\n")
      ∈ noopLines (NewChangeset [⟨"Service", "pi", "p"⟩] [⟨"Service", "pi", "p"⟩] false) ∧
    noopLines (calculateChangeset [⟨"Service", "pi", "p"⟩]
        [⟨"Service", "pi", "p"⟩] ⟨false, false⟩).changeset
      = ["* Service/pi is in sync\n"] :=
  ⟨claim_C7_noop_in_sync.1
      (NewChangeset [⟨"Service", "pi", "p"⟩] [⟨"Service", "pi", "p"⟩] false)
      ⟨"Service", "pi", some "p", some "p"⟩ (by decide),
    (claim_C7_noop_in_sync.2 "p" false false).1⟩


/-- C6: editing a parameter file without changing any plaintext leaves every
encrypted envelope bytewise unchanged — each `*.ENC` key whose decrypted
value is unchanged reuses its original ciphertext, and the rendered file is
byte-identical to the original serialization.  Keys are pairwise distinct per
the data-model invariant of §3. -/
theorem claim_C6_encrypted_stability (ps : List Param)
    (encryptNew : String → String) (hnodup : (ps.map Param.key).Nodup) :
    (∀ p ∈ ps, p.encrypted = true →
      renderLine ps encryptNew (paramView p) = paramLine p) ∧
    renderParams (processParams ps) ps encryptNew = serializeParams ps := by
  have hline : ∀ p ∈ ps, renderLine ps encryptNew (paramView p) = paramLine p := by
    intro p hp
    cases hpe : p.encrypted with
    | false =>
      simp [renderLine, paramView, paramLine, hpe]
    | true =>
      have hfind :
          ps.find? (fun q => q.key == p.key && q.value == p.value && q.encrypted)
            = some p := by
        apply find_first_of_key_nodup Param.key _ ps p hnodup hp
        · simp [hpe]
        · intro x hx
          simp only [Bool.and_eq_true, beq_iff_eq] at hx
          exact hx.1.1
      simp [renderLine, paramView, paramLine, hpe, hfind]
  refine ⟨fun p hp _ => hline p hp, ?_⟩
  unfold renderParams processParams serializeParams
  rw [List.map_map]
  congr 1
  exact List.map_congr_left (fun p hp => hline p hp)

/-- Witness for C6 at a concrete input: one encrypted key, unchanged. -/
theorem claim_C6_encrypted_stability_witness :
    renderLine [⟨"PASSWORD", "s3cret", true, "ENVELOPE"⟩] (fun _ => "NEW")
        (paramView ⟨"PASSWORD", "s3cret", true, "ENVELOPE"⟩)
      = paramLine ⟨"PASSWORD", "s3cret", true, "ENVELOPE"⟩ ∧
    renderParams (processParams [⟨"PASSWORD", "s3cret", true, "ENVELOPE"⟩])
        [⟨"PASSWORD", "s3cret", true, "ENVELOPE"⟩] (fun _ => "NEW")
      = serializeParams [⟨"PASSWORD", "s3cret", true, "ENVELOPE"⟩] :=
  ⟨(claim_C6_encrypted_stability [⟨"PASSWORD", "s3cret", true, "ENVELOPE"⟩]
      (fun _ => "NEW") (by decide)).1 ⟨"PASSWORD", "s3cret", true, "ENVELOPE"⟩
      (by decide) rfl,
    (claim_C6_encrypted_stability [⟨"PASSWORD", "s3cret", true, "ENVELOPE"⟩]
      (fun _ => "NEW") (by decide)).2⟩


/-- C9: `getFilter` is case-insensitive in its resource argument, because the
argument is lower-cased before any matching. -/
theorem claim_C9_getFilter_case_insensitive (s sel : String) :
    getFilter s sel = getFilter (lowerStr s) sel := by
  unfold getFilter
  have hdata : (lowerStr s).data = s.data.map lowerChar := rfl
  have hempty : (s.data.map lowerChar).isEmpty = s.data.isEmpty := by
    cases s.data <;> rfl
  rw [hdata, hempty, lowerStr_idem]

/-- C10: a resource argument containing both a slash and a comma produces the
error `You cannot target more than one resource name` — a kind/name target
cannot be combined with a list. -/
theorem claim_C10_name_and_list_error (s sel : String)
    (h1 : s.data.contains '/' = true) (h2 : s.data.contains ',' = true) :
    getFilter s sel = Except.error "You cannot target more than one resource name" := by
  have hne : s.data.isEmpty = false := by
    cases hd : s.data with
    | nil => rw [hd] at h1; exact absurd h1 (by decide)
    | cons a t => rfl
  have hs1 : (lowerStr s).data.contains '/' = true := by
    rw [show (lowerStr s).data = s.data.map lowerChar from rfl,
      contains_map_lowerChar '/' lowerChar_eq_slash_iff]
    exact h1
  have hs2 : (lowerStr s).data.contains ',' = true := by
    rw [show (lowerStr s).data = s.data.map lowerChar from rfl,
      contains_map_lowerChar ',' lowerChar_eq_comma_iff]
    exact h2
  have hm1 : '/' ∈ (lowerStr s).data := by simpa using hs1
  have hm2 : ',' ∈ (lowerStr s).data := by simpa using hs2
  unfold getFilter
  simp [hne, hm1, hm2]

/-- Witness for C10 at a concrete input. -/
theorem claim_C10_name_and_list_error_witness :
    getFilter "dc/a,b" "" = Except.error "You cannot target more than one resource name" :=
  claim_C10_name_and_list_error "dc/a,b" "" (by decide) (by decide)

/-- C4 as stated is false: the counterexamples show that `sa` and `rb` are
not keys of the alias table (so they are rejected as unknown kinds rather
than mapped to `ServiceAccount` and `RoleBinding`), and that a `kind/name`
argument with an unknown kind token is accepted without error. -/
theorem claim_C4_counterexample :
    getFilter "sa" "" = Except.error "Unknown resource kinds: sa" ∧
    getFilter "rb" "" = Except.error "Unknown resource kinds: rb" ∧
    lookupKind "sa" = none ∧
    lookupKind "rb" = none ∧
    (getFilter "foo/bar" "").isOk = true := by
  decide

/-- C4, amended as the code forces: for a non-empty comma-list argument (one
without a slash) `getFilter` returns a typed error exactly when some token of
the lower-cased argument is not a key of the fixed alias table; the aliases
`dc`, `bc`, `svc`, `is`, `pvc`, `cm` map to their canonical kinds, while `sa`
and `rb` are absent from the table (only the long forms `serviceaccount` and
`rolebinding` are mapped). -/
theorem claim_C4_alias_table_amended (s sel : String) (hne : s ≠ "")
    (hs : s.data.contains '/' = false) :
    ((getFilter s sel).isOk = false ↔
      ((splitOnChar ',' (lowerStr s).data).map String.mk).any
        (fun t => (lookupKind t).isNone) = true) ∧
    lookupKind "dc" = some "DeploymentConfig" ∧
    lookupKind "bc" = some "BuildConfig" ∧
    lookupKind "svc" = some "Service" ∧
    lookupKind "is" = some "ImageStream" ∧
    lookupKind "pvc" = some "PersistentVolumeClaim" ∧
    lookupKind "cm" = some "ConfigMap" ∧
    lookupKind "sa" = none ∧
    lookupKind "rb" = none := by
  refine ⟨?_, by decide, by decide, by decide, by decide, by decide, by decide,
    by decide, by decide⟩
  have hDataNe : s.data.isEmpty = false := by
    cases hd : s.data with
    | nil =>
      exfalso
      apply hne
      cases s with
      | mk d => simp_all
    | cons a t => rfl
  have hsl : (lowerStr s).data.contains '/' = false := by
    rw [show (lowerStr s).data = s.data.map lowerChar from rfl,
      contains_map_lowerChar '/' lowerChar_eq_slash_iff]
    exact hs
  unfold getFilter
  simp only [hDataNe, hsl, Bool.false_eq_true, if_false]
  rw [filter_isEmpty_eq_not_any]
  cases hany : ((splitOnChar ',' (lowerStr s).data).map String.mk).any
      (fun t => (lookupKind t).isNone) <;>
    simp [hany, Except.isOk, Except.toBool]

/-- Witness for the amended C4 at a concrete input. -/
theorem claim_C4_alias_table_amended_witness :
    ((getFilter "dc,sa" "").isOk = false ↔
      ((splitOnChar ',' (lowerStr "dc,sa").data).map String.mk).any
        (fun t => (lookupKind t).isNone) = true) ∧
    lookupKind "dc" = some "DeploymentConfig" ∧
    lookupKind "bc" = some "BuildConfig" ∧
    lookupKind "svc" = some "Service" ∧
    lookupKind "is" = some "ImageStream" ∧
    lookupKind "pvc" = some "PersistentVolumeClaim" ∧
    lookupKind "cm" = some "ConfigMap" ∧
    lookupKind "sa" = none ∧
    lookupKind "rb" = none :=
  claim_C4_alias_table_amended "dc,sa" "" (by decide) (by decide)

end Tailor
